import Mathlib

/-!
Shallow embedding of `little-loadshedder` (`src/lib.rs`), an adaptive
admission-control gate (tower `Service` middleware) that self-tunes a
concurrency limit and a queue limit so that average latency tracks a target.

Modelling conventions:
* `f64` latencies and `Instant` timestamps become `ℚ`; `Duration` values are
  nonnegative rationals.  All the concrete scenarios checked below use values
  that are exact in binary floating point, so rational arithmetic coincides
  with the `f64` arithmetic of the source on them.
* A tokio `Semaphore` is modelled by its count of free permits (a `ℕ` field of
  the state).  `try_acquire_many n` succeeds iff `n` free permits exist,
  `add_permits` adds, `forget` discards held permits without returning them.
* `Instant::elapsed` saturates at zero, hence `elapsedSince`.
* `(x as usize)` on a floored `f64` saturates below at `0`, hence
  `Int.toNat ∘ Int.floor`.
-/

namespace LoadShedder

/-- The immutable configuration of `LoadShedConf` (`target`, `ewma_param`). -/
structure Conf where
  target : ℚ
  ewma_param : ℚ
deriving DecidableEq, Repr

/-- `ConfStats` together with the free-permit counts of the two semaphores
(`available_concurrency`, `available_queue`).  `concFree` and `queueFree`
model `Semaphore::available_permits()`. -/
structure ShedState where
  moving_average : ℚ
  concurrency : ℕ
  last_decrement : ℚ
  last_increment : ℚ
  queue_capacity : ℕ
  average_latency_at_capacity : ℚ
  concFree : ℕ
  queueFree : ℕ
deriving DecidableEq, Repr

/-- `LoadShedConf::new(ewma_param, target)` at creation instant `t0`: both
semaphores start with one permit, the stats start at the target latency. -/
def initStats (target t0 : ℚ) : ShedState :=
  { moving_average := target
    concurrency := 1
    last_decrement := t0
    last_increment := t0
    queue_capacity := 1
    average_latency_at_capacity := target
    concFree := 1
    queueFree := 1 }

/-- `LoadShedConf::new` : construction never validates its parameters. -/
def LoadShedConf.new (ewma_param target t0 : ℚ) : Conf × ShedState :=
  (⟨target, ewma_param⟩, initStats target t0)

/-- `Instant::elapsed` measured at instant `now` for an instant `last`;
the subtraction of `Instant`s saturates at zero. -/
def elapsedSince (now last : ℚ) : ℚ := max 0 (now - last)

/-- The desired queue capacity computed at the top of `LoadShedConf::start`:
`usize::max(1, (concurrency as f64 * (target / average_latency_at_capacity - 1.0)).floor() as usize)`. -/
def desiredQueueCapacity (c : Conf) (s : ShedState) : ℕ :=
  max 1
    (Int.toNat
      (Rat.floor ((s.concurrency : ℚ) * (c.target / s.average_latency_at_capacity - 1))))

/-- The first critical section of `LoadShedConf::start` (the queue sizer):
resize `available_queue` towards the desired capacity.  The `Bool` is `false`
exactly on the early `return Err(())` (shrink needed but too few free
permits), in which case no field has been mutated. -/
def queueSizer (c : Conf) (s : ShedState) : ShedState × Bool :=
  if desiredQueueCapacity c s < s.queue_capacity then
    if s.queue_capacity - desiredQueueCapacity c s ≤ s.queueFree then
      ({ s with queueFree := s.queueFree - (s.queue_capacity - desiredQueueCapacity c s)
              , queue_capacity := desiredQueueCapacity c s }, true)
    else
      (s, false)
  else if desiredQueueCapacity c s = s.queue_capacity then
    ({ s with queue_capacity := desiredQueueCapacity c s }, true)
  else
    ({ s with queueFree := s.queueFree + (desiredQueueCapacity c s - s.queue_capacity)
            , queue_capacity := desiredQueueCapacity c s }, true)

/-- `available_queue.try_acquire_owned()` : take one queue permit if one is
free; `false` models `Err(TryAcquireError::NoPermits)`. -/
def tryAcquireQueue (s : ShedState) : ShedState × Bool :=
  if s.queueFree = 0 then (s, false)
  else ({ s with queueFree := s.queueFree - 1 }, true)

/-- The synchronous (non-suspending) prefix of `LoadShedConf::start`: queue
sizer, then non-blocking queue acquire.  `false` means the admission attempt
was rejected. -/
def startSync (c : Conf) (s : ShedState) : ShedState × Bool :=
  if (queueSizer c s).2 then tryAcquireQueue (queueSizer c s).1 else queueSizer c s

/-- Outcome of `LoadShedConf::start`: `admitted` (holding a concurrency
permit, queue permit dropped), `rejected` (`Err(())`), or `waiting` at the
blocking `acquire_owned` on the concurrency semaphore (holding the queue
permit). -/
inductive StartResult where
  | admitted : ShedState → StartResult
  | rejected : ShedState → StartResult
  | waiting : ShedState → StartResult
deriving DecidableEq, Repr

/-- `LoadShedConf::start`.  The blocking acquire completes immediately when a
concurrency permit is free; otherwise the task is suspended (`waiting`).
On success the queue permit is dropped back (`drop(queue_permit)`). -/
def start (c : Conf) (s : ShedState) : StartResult :=
  if (startSync c s).2 then
    if (startSync c s).1.concFree = 0 then .waiting (startSync c s).1
    else
      .admitted { (startSync c s).1 with
                    concFree := (startSync c s).1.concFree - 1
                  , queueFree := (startSync c s).1.queueFree + 1 }
  else .rejected (startSync c s).1

/-- The EWMA update of the source: `old * (1.0 - ewma_param) + ewma_param * new`. -/
def ewmaUpd (w old x : ℚ) : ℚ := old * (1 - w) + w * x

/-- The guard of the grow arm of `stop` (`available_permits == 0 &&
moving_average < target && last_increment.elapsed() > target`), on the
already-updated moving average. -/
abbrev growCond (c : Conf) (now elapsed : ℚ) (s : ShedState) : Prop :=
  s.concFree = 0 ∧ ewmaUpd c.ewma_param s.moving_average elapsed < c.target ∧
    c.target < elapsedSince now s.last_increment

/-- The guard of the shrink arm of `stop` (`moving_average > target &&
last_decrement.elapsed() > target && concurrency > 1`), on the
already-updated moving average. -/
abbrev shrinkCond (c : Conf) (now elapsed : ℚ) (s : ShedState) : Prop :=
  c.target < ewmaUpd c.ewma_param s.moving_average elapsed ∧
    c.target < elapsedSince now s.last_decrement ∧ 1 < s.concurrency

/-- `LoadShedConf::stop(elapsed, concurrency_permit)` called at instant `now`.
Flattened rendering of the source: the moving average is always updated; the
free-permit count is sampled once (`available_permits`) before any
adjustment; grow and shrink are the two arms of an `if / else if`;
`average_latency_at_capacity` is updated iff the sampled count was zero (in
the grow arm the guard already forces `concFree = 0`, so its update is
unconditional there); the permit is forgotten by the shrink arm (no
`concFree` increase) and dropped back to the pool otherwise (`+ 1`; the grow
arm additionally runs `add_permits(1)`, hence `+ 2`). -/
def stop (c : Conf) (now elapsed : ℚ) (s : ShedState) : ShedState :=
  if growCond c now elapsed s then
    { s with moving_average := ewmaUpd c.ewma_param s.moving_average elapsed
           , concurrency := s.concurrency + 1
           , last_increment := now
           , concFree := s.concFree + 2
           , average_latency_at_capacity :=
               ewmaUpd c.ewma_param s.average_latency_at_capacity elapsed }
  else if shrinkCond c now elapsed s then
    { s with moving_average := ewmaUpd c.ewma_param s.moving_average elapsed
           , concurrency := s.concurrency - 1
           , last_decrement := now
           , average_latency_at_capacity :=
               if s.concFree = 0 then
                 ewmaUpd c.ewma_param s.average_latency_at_capacity elapsed
               else s.average_latency_at_capacity }
  else
    { s with moving_average := ewmaUpd c.ewma_param s.moving_average elapsed
           , concFree := s.concFree + 1
           , average_latency_at_capacity :=
               if s.concFree = 0 then
                 ewmaUpd c.ewma_param s.average_latency_at_capacity elapsed
               else s.average_latency_at_capacity }

/-- `LoadShedError` (`Inner`, `QueueFull`, `Overload`). -/
inductive LoadShedError (T : Type) where
  | Inner : T → LoadShedError T
  | QueueFull : LoadShedError T
  | Overload : LoadShedError T
deriving DecidableEq, Repr

/-- `Poll` from the task system: `Pending` or `Ready a`. -/
inductive Poll (A : Type) where
  | pending : Poll A
  | ready : A → Poll A
deriving DecidableEq, Repr

/-- `LoadShed::poll_ready`: `self.inner.poll_ready(cx).map_err(LoadShedError::Inner)`. -/
def pollReady {E : Type} (inner : Poll (Except E Unit)) :
    Poll (Except (LoadShedError E) Unit) :=
  match inner with
  | .pending => .pending
  | .ready (.ok u) => .ready (.ok u)
  | .ready (.error e) => .ready (.error (.Inner e))

/-- `LoadShed::call` on one request, given the inner service's result and the
elapsed service time.  `none` models the future still being suspended inside
`start` (no concurrency permit free).  On rejection the counter path returns
`Err(LoadShedError::QueueFull)`; on admission `stop` runs before
`Ok(response?)` rewraps the inner result. -/
def call {E R : Type} (c : Conf) (s : ShedState) (innerRes : Except E R)
    (now elapsed : ℚ) : ShedState × Option (Except (LoadShedError E) R) :=
  match start c s with
  | .rejected s1 => (s1, some (.error .QueueFull))
  | .waiting s1 => (s1, none)
  | .admitted s1 =>
      (stop c now elapsed s1,
        some (match innerRes with
              | .ok r => .ok r
              | .error e => .error (.Inner e)))

/-- One interleaving step of the gate's shared state: either the queue-sizer
critical section, the non-blocking queue acquire, completion of the blocking
concurrency acquire (dropping the queue permit), a cancelled caller's permit
returning to a pool, or a completion's `stop`. -/
inductive Step (c : Conf) : ShedState → ShedState → Prop where
  | sizer : ∀ s, Step c s (queueSizer c s).1
  | tryQueue : ∀ s, Step c s (tryAcquireQueue s).1
  | acquireConc : ∀ s, 0 < s.concFree →
      Step c s { s with concFree := s.concFree - 1, queueFree := s.queueFree + 1 }
  | releaseConc : ∀ s, Step c s { s with concFree := s.concFree + 1 }
  | releaseQueue : ∀ s, Step c s { s with queueFree := s.queueFree + 1 }
  | stopStep : ∀ s now elapsed, Step c s (stop c now elapsed s)

/-- States reachable from construction by any interleaving of the gate's
operations. -/
inductive Reachable (c : Conf) (t0 : ℚ) : ShedState → Prop where
  | init : Reachable c t0 (initStats c.target t0)
  | step : ∀ s s', Reachable c t0 s → Step c s s' → Reachable c t0 s'

/-- Fold a sequence of completions (`now`, `elapsed`) through `stop`. -/
def runStops (c : Conf) : ShedState → List (ℚ × ℚ) → ShedState
  | s, [] => s
  | s, (now, e) :: rest => runStops c (stop c now e s) rest

/-- The instants at which a sequence of completions increases `concurrency`. -/
def incTimes (c : Conf) : ShedState → List (ℚ × ℚ) → List ℚ
  | _, [] => []
  | s, (now, e) :: rest =>
      if s.concurrency < (stop c now e s).concurrency then
        now :: incTimes c (stop c now e s) rest
      else incTimes c (stop c now e s) rest

/-- The instants at which a sequence of completions decreases `concurrency`. -/
def decTimes (c : Conf) : ShedState → List (ℚ × ℚ) → List ℚ
  | _, [] => []
  | s, (now, e) :: rest =>
      if (stop c now e s).concurrency < s.concurrency then
        now :: decTimes c (stop c now e s) rest
      else decTimes c (stop c now e s) rest

/-! ### Helper lemmas -/

lemma ratFloor_eq_intFloor (q : ℚ) : Rat.floor q = ⌊q⌋ := by
  rw [Rat.floor_def', Rat.floor_def]

lemma desired_at_target (c : Conf) (s : ShedState)
    (h1 : s.average_latency_at_capacity = c.target) (h2 : 0 < c.target) :
    desiredQueueCapacity c s = 1 := by
  unfold desiredQueueCapacity
  rw [h1, div_self (ne_of_gt h2), ratFloor_eq_intFloor]
  norm_num

lemma queueSizer_fst_concurrency (c : Conf) (s : ShedState) :
    ((queueSizer c s).1).concurrency = s.concurrency := by
  unfold queueSizer
  split_ifs <;> rfl

lemma queueSizer_fst_capacity (c : Conf) (s : ShedState)
    (h : 1 ≤ s.queue_capacity) : 1 ≤ ((queueSizer c s).1).queue_capacity := by
  unfold queueSizer
  split_ifs <;> first
    | exact h
    | exact le_max_left 1 _

lemma tryAcquireQueue_fst (s : ShedState) :
    ((tryAcquireQueue s).1).concurrency = s.concurrency ∧
      ((tryAcquireQueue s).1).queue_capacity = s.queue_capacity := by
  unfold tryAcquireQueue
  split_ifs <;> exact ⟨rfl, rfl⟩

lemma stop_queue_capacity (c : Conf) (now e : ℚ) (s : ShedState) :
    (stop c now e s).queue_capacity = s.queue_capacity := by
  unfold stop
  split_ifs <;> rfl

lemma stop_concurrency_eq (c : Conf) (now e : ℚ) (s : ShedState) :
    (stop c now e s).concurrency =
      if growCond c now e s then s.concurrency + 1
      else if shrinkCond c now e s then s.concurrency - 1
      else s.concurrency := by
  unfold stop
  split_ifs <;> rfl

lemma stop_last_increment_eq (c : Conf) (now e : ℚ) (s : ShedState) :
    (stop c now e s).last_increment =
      if growCond c now e s then now else s.last_increment := by
  unfold stop
  split_ifs <;> rfl

lemma stop_last_decrement_eq (c : Conf) (now e : ℚ) (s : ShedState) :
    (stop c now e s).last_decrement =
      if growCond c now e s then s.last_decrement
      else if shrinkCond c now e s then now
      else s.last_decrement := by
  unfold stop
  split_ifs <;> rfl

lemma stop_concurrency_ge (c : Conf) (now e : ℚ) (s : ShedState)
    (h : 1 ≤ s.concurrency) : 1 ≤ (stop c now e s).concurrency := by
  rw [stop_concurrency_eq]
  split_ifs with h1 h2
  · omega
  · have := h2.2.2
    omega
  · exact h

lemma stop_dec_le (c : Conf) (now e : ℚ) (s : ShedState) :
    s.concurrency ≤ (stop c now e s).concurrency + 1 := by
  rw [stop_concurrency_eq]
  split_ifs <;> omega

lemma reachable_inv {c : Conf} {t0 : ℚ} {s : ShedState}
    (h : Reachable c t0 s) : 1 ≤ s.concurrency ∧ 1 ≤ s.queue_capacity := by
  induction h with
  | init => exact ⟨le_refl 1, le_refl 1⟩
  | step s s' _ hstep ih =>
      cases hstep with
      | sizer =>
          exact ⟨(queueSizer_fst_concurrency c s) ▸ ih.1,
            queueSizer_fst_capacity c s ih.2⟩
      | tryQueue =>
          exact ⟨(tryAcquireQueue_fst s).1 ▸ ih.1, (tryAcquireQueue_fst s).2 ▸ ih.2⟩
      | acquireConc => exact ih
      | releaseConc => exact ih
      | releaseQueue => exact ih
      | stopStep now e =>
          exact ⟨stop_concurrency_ge c now e s ih.1,
            (stop_queue_capacity c now e s) ▸ ih.2⟩

lemma stop_inc_guard {c : Conf} {now e : ℚ} {s : ShedState}
    (h : s.concurrency < (stop c now e s).concurrency) :
    c.target < elapsedSince now s.last_increment ∧
      (stop c now e s).last_increment = now := by
  rw [stop_concurrency_eq] at h
  rw [stop_last_increment_eq]
  split_ifs at h ⊢ with h1 h2
  · exact ⟨h1.2.2, rfl⟩
  · omega
  · omega

lemma stop_dec_guard {c : Conf} {now e : ℚ} {s : ShedState}
    (h : (stop c now e s).concurrency < s.concurrency) :
    c.target < elapsedSince now s.last_decrement ∧
      (stop c now e s).last_decrement = now := by
  rw [stop_concurrency_eq] at h
  rw [stop_last_decrement_eq]
  split_ifs at h ⊢ with h1 h2
  · omega
  · exact ⟨h2.2.1, rfl⟩
  · omega

lemma stop_noninc_last {c : Conf} {now e : ℚ} {s : ShedState}
    (h : ¬ s.concurrency < (stop c now e s).concurrency) :
    (stop c now e s).last_increment = s.last_increment := by
  rw [stop_concurrency_eq] at h
  rw [stop_last_increment_eq]
  split_ifs at h ⊢ with h1
  · omega
  all_goals rfl

lemma stop_nondec_last {c : Conf} {now e : ℚ} {s : ShedState}
    (h : ¬ (stop c now e s).concurrency < s.concurrency) :
    (stop c now e s).last_decrement = s.last_decrement := by
  rw [stop_concurrency_eq] at h
  rw [stop_last_decrement_eq]
  split_ifs at h ⊢ with h1 h2
  · rfl
  · have := h2.2.2
    omega
  · rfl

lemma elapsed_gap {t d x : ℚ} (ht : 0 ≤ t) (h : t < elapsedSince x d) :
    t < x - d := by
  unfold elapsedSince at h
  rcases lt_max_iff.mp h with h0 | h1
  · exact absurd h0 (not_lt.mpr ht)
  · exact h1

lemma incTimes_chain (c : Conf) (ht : 0 ≤ c.target) :
    ∀ (evs : List (ℚ × ℚ)) (s : ShedState),
      List.Chain (fun a b => c.target < b - a) s.last_increment (incTimes c s evs)
  | [], _ => List.Chain.nil
  | (now, e) :: rest, s => by
      unfold incTimes
      split_ifs with h
      · refine List.Chain.cons (elapsed_gap ht (stop_inc_guard h).1) ?_
        have hc := incTimes_chain c ht rest (stop c now e s)
        rwa [(stop_inc_guard h).2] at hc
      · have hc := incTimes_chain c ht rest (stop c now e s)
        rwa [stop_noninc_last h] at hc

lemma decTimes_chain (c : Conf) (ht : 0 ≤ c.target) :
    ∀ (evs : List (ℚ × ℚ)) (s : ShedState),
      List.Chain (fun a b => c.target < b - a) s.last_decrement (decTimes c s evs)
  | [], _ => List.Chain.nil
  | (now, e) :: rest, s => by
      unfold decTimes
      split_ifs with h
      · refine List.Chain.cons (elapsed_gap ht (stop_dec_guard h).1) ?_
        have hc := decTimes_chain c ht rest (stop c now e s)
        rwa [(stop_dec_guard h).2] at hc
      · have hc := decTimes_chain c ht rest (stop c now e s)
        rwa [stop_nondec_last h] at hc

/-! ### Claim theorems -/

/-- C1: on every admission attempt the queue sizer computes the desired
capacity as `max(1, floor(concurrency * (target / average_latency_at_capacity - 1)))`;
when the desired value equals the current `queue_capacity` the queue pool is
left unchanged; and with `average_latency_at_capacity = target` and
`concurrency = 2` the desired capacity is `1`. -/
theorem queue_sizer_desired (c : Conf) (s : ShedState) :
    ((desiredQueueCapacity c s : ℤ) =
        max 1 ⌊(s.concurrency : ℚ) * (c.target / s.average_latency_at_capacity - 1)⌋)
    ∧ (desiredQueueCapacity c s = s.queue_capacity → queueSizer c s = (s, true))
    ∧ (s.average_latency_at_capacity = c.target → 0 < c.target → s.concurrency = 2 →
        desiredQueueCapacity c s = 1) := by
  refine ⟨?_, ?_, ?_⟩
  · unfold desiredQueueCapacity
    rw [ratFloor_eq_intFloor]
    generalize ⌊(s.concurrency : ℚ) * (c.target / s.average_latency_at_capacity - 1)⌋ = m
    omega
  · intro h
    unfold queueSizer
    rw [if_neg (by omega), if_pos h, h]
  · intro h1 h2 _
    exact desired_at_target c s h1 h2

/-- Witness for C1 at `target = 1`, `average_latency_at_capacity = 1`,
`concurrency = 2`, `queue_capacity = 1`. -/
theorem queue_sizer_desired_witness :
    desiredQueueCapacity ⟨1, 1/2⟩ { initStats 1 0 with concurrency := 2 } = 1 ∧
    queueSizer ⟨1, 1/2⟩ { initStats 1 0 with concurrency := 2 } =
      ({ initStats 1 0 with concurrency := 2 }, true) := by
  have hd : desiredQueueCapacity ⟨1, 1/2⟩ { initStats 1 0 with concurrency := 2 } = 1 :=
    (queue_sizer_desired ⟨1, 1/2⟩ _).2.2 rfl (by decide) rfl
  exact ⟨hd, (queue_sizer_desired ⟨1, 1/2⟩ _).2.1 hd⟩

/-- C2: when the queue sizer must shrink but fewer than
`queue_capacity - desired` queue permits are free, the admission attempt is
rejected immediately and the state (in particular `queue_capacity` and the
queue pool's free-permit count) is returned exactly unchanged; the
subsequent try-acquire is never reached. -/
theorem queue_sizer_shrink_rejection (c : Conf) (s : ShedState)
    (hlt : desiredQueueCapacity c s < s.queue_capacity)
    (hfree : s.queueFree < s.queue_capacity - desiredQueueCapacity c s) :
    queueSizer c s = (s, false) ∧ startSync c s = (s, false) := by
  have h1 : queueSizer c s = (s, false) := by
    unfold queueSizer
    rw [if_pos hlt, if_neg (by omega)]
  refine ⟨h1, ?_⟩
  unfold startSync
  rw [h1]
  rfl

/-- Witness for C2: `queue_capacity = 3`, desired capacity `1`, only one
free queue permit. -/
theorem queue_sizer_shrink_rejection_witness :
    queueSizer ⟨1, 1/2⟩ { initStats 1 0 with queue_capacity := 3 } =
      ({ initStats 1 0 with queue_capacity := 3 }, false) ∧
    startSync ⟨1, 1/2⟩ { initStats 1 0 with queue_capacity := 3 } =
      ({ initStats 1 0 with queue_capacity := 3 }, false) := by
  have hd : desiredQueueCapacity ⟨1, 1/2⟩ { initStats 1 0 with queue_capacity := 3 } = 1 :=
    desired_at_target _ _ rfl (by decide)
  exact queue_sizer_shrink_rejection _ _ (by rw [hd]; decide) (by rw [hd]; decide)

/-- C3: `stop` always updates the moving average by the EWMA formula, and in
the concrete scenario (`target = 1`, `ewma_param = 1/2`, fresh state with the
sole concurrency permit held, completion after `2/5` seconds at instant `2`)
it yields `moving_average = 7/10`, `concurrency = 2` and
`average_latency_at_capacity = 7/10`. -/
theorem stop_moving_average_scenario :
    (∀ (c : Conf) (now e : ℚ) (s : ShedState),
        (stop c now e s).moving_average =
          s.moving_average * (1 - c.ewma_param) + c.ewma_param * e)
    ∧ (stop ⟨1, 1/2⟩ 2 (2/5) { initStats 1 0 with concFree := 0 }).moving_average = 7/10
    ∧ (stop ⟨1, 1/2⟩ 2 (2/5) { initStats 1 0 with concFree := 0 }).concurrency = 2
    ∧ (stop ⟨1, 1/2⟩ 2 (2/5)
        { initStats 1 0 with concFree := 0 }).average_latency_at_capacity = 7/10 := by
  refine ⟨fun c now e s => ?_, ?_, ?_, ?_⟩
  · unfold stop ewmaUpd
    split_ifs <;> rfl
  all_goals
    norm_num [stop, growCond, shrinkCond, ewmaUpd, elapsedSince, initStats,
      max_eq_right, sub_zero]

/-- C4: `average_latency_at_capacity` is assigned the EWMA update by a
completion exactly when the concurrency pool had zero free permits at the
moment sampled in that `stop` call (before the permit is returned or added),
and is left unchanged by a completion observed with free capacity. -/
theorem alac_updates_iff_saturated (c : Conf) (now e : ℚ) (s : ShedState) :
    ((stop c now e s).average_latency_at_capacity =
      if s.concFree = 0 then
        s.average_latency_at_capacity * (1 - c.ewma_param) + c.ewma_param * e
      else s.average_latency_at_capacity)
    ∧ (s.concFree ≠ 0 →
        (stop c now e s).average_latency_at_capacity = s.average_latency_at_capacity) := by
  have h1 : (stop c now e s).average_latency_at_capacity =
      if s.concFree = 0 then
        s.average_latency_at_capacity * (1 - c.ewma_param) + c.ewma_param * e
      else s.average_latency_at_capacity := by
    unfold stop ewmaUpd
    split_ifs <;> first | rfl | simp_all [growCond, ewmaUpd]
  exact ⟨h1, fun h => by rw [h1, if_neg h]⟩

/-- Witness for C4: a completion observed with one free permit leaves
`average_latency_at_capacity` unchanged. -/
theorem alac_updates_iff_saturated_witness :
    (stop ⟨1, 1/2⟩ 3 (2/5) (initStats 1 0)).average_latency_at_capacity =
      (initStats 1 0).average_latency_at_capacity :=
  (alac_updates_iff_saturated ⟨1, 1/2⟩ 3 (2/5) (initStats 1 0)).2 (by decide)

/-- C5: over any sequence of completions, consecutive concurrency increases
are separated by more than `target` seconds (chained from the recorded
`last_increment`), likewise decreases from `last_decrement`; within a single
`stop` the grow and shrink adjustments are mutually exclusive with grow
evaluated first, and no call both increases and decreases concurrency. -/
theorem concurrency_cooldown (c : Conf) (ht : 0 ≤ c.target) (s : ShedState)
    (evs : List (ℚ × ℚ)) :
    List.Chain (fun a b => c.target < b - a) s.last_increment (incTimes c s evs)
    ∧ List.Chain (fun a b => c.target < b - a) s.last_decrement (decTimes c s evs)
    ∧ (∀ (now e : ℚ) (s0 : ShedState), growCond c now e s0 →
        (stop c now e s0).concurrency = s0.concurrency + 1)
    ∧ (∀ (now e : ℚ) (s0 : ShedState), ¬ (growCond c now e s0 ∧ shrinkCond c now e s0))
    ∧ (∀ (now e : ℚ) (s0 : ShedState), ¬ growCond c now e s0 → shrinkCond c now e s0 →
        (stop c now e s0).concurrency = s0.concurrency - 1)
    ∧ (∀ (now e : ℚ) (s0 : ShedState),
        ¬ (s0.concurrency < (stop c now e s0).concurrency ∧
           (stop c now e s0).concurrency < s0.concurrency)) := by
  refine ⟨incTimes_chain c ht evs s, decTimes_chain c ht evs s, ?_, ?_, ?_, ?_⟩
  · intro now e s0 hg
    rw [stop_concurrency_eq, if_pos hg]
  · rintro now e s0 ⟨hg, hs⟩
    exact absurd hs.1 (not_lt.mpr (le_of_lt hg.2.1))
  · intro now e s0 hg hs
    rw [stop_concurrency_eq, if_neg hg, if_pos hs]
  · intro now e s0
    rw [stop_concurrency_eq]
    split_ifs <;> omega

/-- Witness for C5 at `target = 1`, one completion that grows concurrency at
instant `2`. -/
theorem concurrency_cooldown_witness :
    List.Chain (fun a b => (Conf.mk 1 (1/2)).target < b - a)
        ({ initStats 1 0 with concFree := 0 } : ShedState).last_increment
        (incTimes ⟨1, 1/2⟩ { initStats 1 0 with concFree := 0 } [(2, 2/5)])
    ∧ List.Chain (fun a b => (Conf.mk 1 (1/2)).target < b - a)
        ({ initStats 1 0 with concFree := 0 } : ShedState).last_decrement
        (decTimes ⟨1, 1/2⟩ { initStats 1 0 with concFree := 0 } [(2, 2/5)])
    ∧ (∀ (now e : ℚ) (s0 : ShedState), growCond ⟨1, 1/2⟩ now e s0 →
        (stop ⟨1, 1/2⟩ now e s0).concurrency = s0.concurrency + 1)
    ∧ (∀ (now e : ℚ) (s0 : ShedState),
        ¬ (growCond ⟨1, 1/2⟩ now e s0 ∧ shrinkCond ⟨1, 1/2⟩ now e s0))
    ∧ (∀ (now e : ℚ) (s0 : ShedState), ¬ growCond ⟨1, 1/2⟩ now e s0 →
        shrinkCond ⟨1, 1/2⟩ now e s0 →
        (stop ⟨1, 1/2⟩ now e s0).concurrency = s0.concurrency - 1)
    ∧ (∀ (now e : ℚ) (s0 : ShedState),
        ¬ (s0.concurrency < (stop ⟨1, 1/2⟩ now e s0).concurrency ∧
           (stop ⟨1, 1/2⟩ now e s0).concurrency < s0.concurrency)) :=
  concurrency_cooldown ⟨1, 1/2⟩ (by norm_num) { initStats 1 0 with concFree := 0 } [(2, 2/5)]

/-- C6: every state reachable from construction by any interleaving of the
gate's operations has `concurrency ≥ 1` and `queue_capacity ≥ 1`, and a
single completion decreases concurrency by at most one. -/
theorem limits_at_least_one (c : Conf) (t0 : ℚ) (s : ShedState)
    (h : Reachable c t0 s) :
    1 ≤ s.concurrency ∧ 1 ≤ s.queue_capacity ∧
      ∀ (now e : ℚ) (s0 : ShedState), s0.concurrency ≤ (stop c now e s0).concurrency + 1 :=
  ⟨(reachable_inv h).1, (reachable_inv h).2, fun now e s0 => stop_dec_le c now e s0⟩

/-- Witness for C6 at the state reached by construction followed by one
completion. -/
theorem limits_at_least_one_witness :
    1 ≤ (stop ⟨1, 1/2⟩ 2 (2/5) (initStats 1 0)).concurrency ∧
    1 ≤ (stop ⟨1, 1/2⟩ 2 (2/5) (initStats 1 0)).queue_capacity ∧
      ∀ (now e : ℚ) (s0 : ShedState),
        s0.concurrency ≤ (stop ⟨1, 1/2⟩ now e s0).concurrency + 1 :=
  limits_at_least_one ⟨1, 1/2⟩ 0 _
    (Reachable.step _ _ Reachable.init (Step.stopStep _ 2 (2/5)))

/-- C7: every admission failure (queue-sizer shrink rejection or no free
queue permit at try-acquire, i.e. any rejecting `startSync`) surfaces as
`LoadShedError.QueueFull`, and no code path of `call` ever produces
`LoadShedError.Overload`. -/
theorem rejection_error_unified {E R : Type} (c : Conf) (s : ShedState)
    (res : Except E R) (now e : ℚ) :
    ((startSync c s).2 = false →
      (call c s res now e).2 = some (Except.error LoadShedError.QueueFull))
    ∧ (call c s res now e).2 ≠ some (Except.error LoadShedError.Overload) := by
  constructor
  · intro h
    unfold call start
    rw [h]
    rfl
  · unfold call start
    split_ifs with h1 h2
    · simp
    · cases res <;> simp
    · simp

/-- Witness for C7: a state with the queue pool fully occupied is rejected
with `QueueFull`. -/
theorem rejection_error_unified_witness :
    (call ⟨1, 1/2⟩ { initStats 1 0 with queueFree := 0 }
        (Except.ok (0 : ℕ) : Except ℕ ℕ) 0 0).2 =
      some (Except.error LoadShedError.QueueFull) := by
  have hd : desiredQueueCapacity ⟨1, 1/2⟩ { initStats 1 0 with queueFree := 0 } = 1 :=
    desired_at_target _ _ rfl (by decide)
  refine (rejection_error_unified ⟨1, 1/2⟩ { initStats 1 0 with queueFree := 0 }
    (Except.ok (0 : ℕ) : Except ℕ ℕ) 0 0).1 ?_
  unfold startSync queueSizer tryAcquireQueue
  rw [hd]
  decide

/-- C8: the gate's readiness check returns exactly the inner handler's
readiness, wrapping an inner error in `LoadShedError.Inner`; it is pending
iff the inner poll is pending, so the gate never independently reports
not-ready. -/
theorem poll_ready_forwards {E : Type} (p : Poll (Except E Unit)) :
    (pollReady p = Poll.pending ↔ p = Poll.pending)
    ∧ (∀ u : Unit, pollReady p = Poll.ready (Except.ok u) ↔ p = Poll.ready (Except.ok u))
    ∧ (∀ er : E, pollReady p = Poll.ready (Except.error (LoadShedError.Inner er)) ↔
        p = Poll.ready (Except.error er)) := by
  cases p with
  | pending => simp [pollReady]
  | ready r =>
      cases r with
      | ok u => simp [pollReady]
      | error er => simp [pollReady]

/-- C9: construction validates nothing: for every `ewma_param` (also outside
`(0,1)`) and every target (also zero), `LoadShedConf::new` succeeds and
stores exactly these parameters, with `moving_average` and
`average_latency_at_capacity` initialized to the target and both capacities
to one. -/
theorem new_no_validation (w t t0 : ℚ) :
    (LoadShedConf.new w t t0).1 = Conf.mk t w
    ∧ (LoadShedConf.new w t t0).2 = initStats t t0
    ∧ (LoadShedConf.new w t t0).2.moving_average = t
    ∧ (LoadShedConf.new w t t0).2.average_latency_at_capacity = t
    ∧ (LoadShedConf.new w t t0).2.concurrency = 1
    ∧ (LoadShedConf.new w t t0).2.queue_capacity = 1 :=
  ⟨rfl, rfl, rfl, rfl, rfl, rfl⟩

/-- C10: when the inner handler fails, `stop` still runs with the elapsed
time and the concurrency permit — the state after `call` is identical to the
state after a successful call — and only then is the inner error wrapped in
`LoadShedError.Inner` and returned. -/
theorem inner_error_still_sampled {E R : Type} (c : Conf) (s : ShedState)
    (er : E) (r : R) (now el : ℚ) :
    (call c s (Except.error er : Except E R) now el).1 =
      (call c s (Except.ok r : Except E R) now el).1
    ∧ (∀ s1, start c s = StartResult.admitted s1 →
        call c s (Except.error er : Except E R) now el =
          (stop c now el s1, some (Except.error (LoadShedError.Inner er)))) := by
  constructor
  · unfold call
    rcases start c s with s1 | s1 | s1 <;> rfl
  · intro s1 h
    unfold call
    rw [h]

/-- Witness for C10: an admitted call whose inner handler fails with error
`5` still feeds the completion into `stop`. -/
theorem inner_error_still_sampled_witness :
    call ⟨1, 1/2⟩ (initStats 1 0) (Except.error (5 : ℕ) : Except ℕ ℕ) 3 (2/5) =
      (stop ⟨1, 1/2⟩ 3 (2/5)
        { moving_average := 1, concurrency := 1, last_decrement := 0, last_increment := 0,
          queue_capacity := 1, average_latency_at_capacity := 1, concFree := 0, queueFree := 1 },
        some (Except.error (LoadShedError.Inner 5))) := by
  have hd : desiredQueueCapacity ⟨1, 1/2⟩ (initStats 1 0) = 1 :=
    desired_at_target _ _ rfl (by decide)
  refine (inner_error_still_sampled ⟨1, 1/2⟩ (initStats 1 0) 5 (5 : ℕ) 3 (2/5)).2 _ ?_
  unfold start startSync queueSizer tryAcquireQueue
  rw [hd]
  decide

end LoadShedder
